import Mathlib

/-!
Shallow embedding of the `execute` dispatcher of the Microsoft Outlook node
(`packages/nodes-base/nodes/Microsoft/Outlook/MicrosoftOutlook.node.ts`).

The embedding models, faithfully to the source:
  * the per-item dispatch loops with the continue-on-fail catch pattern;
  * the `message.get` loop including its early `return [returnData]` when the
    attachment-download option (`dataPropertyAttachmentsPrefixName`) is set;
  * the `messageAttachment.add` handler: validation, the strict `> 3e6`
    transfer-path decision, the upload-session creation, and the 4,000,000-byte
    chunk PUT loop with its Content-Range arithmetic;
  * the in-place mutation loops of `message.getMime` and
    `messageAttachment.download` (shallow binary-map copy, error overwrite);
  * the `message.getAll` loop's mutation of the shared `qs` object.

HTTP responses are supplied by oracle functions; issued HTTP requests are
returned as explicit call traces.
-/

namespace OutlookNode

/-- JSON payload of a workflow item: an opaque original payload, or the
error marker object written by the continue-on-fail handlers. -/
inductive ItemJson where
  | payload : Nat → ItemJson
  | errorMarker : String → ItemJson
deriving DecidableEq, Repr

/-- One named binary payload of an item (filename, MIME type, raw bytes),
mirroring the fields of n8n binary data used by the node. -/
structure BinaryData where
  fileName : Option String
  mimeType : Option String
  data : List Nat
deriving DecidableEq, Repr

/-- One workflow input item: JSON plus an optional map of named binary
payloads (`binary === undefined` is modelled by `none`). -/
structure Item where
  json : ItemJson
  binary : Option (List (String × BinaryData))
deriving DecidableEq, Repr

instance : Inhabited Item := ⟨⟨ItemJson.payload 0, none⟩⟩

deriving instance DecidableEq for Except

/-- One output record pushed onto `returnData`: a success payload or an
error marker, tagged with the origin item index (itemData item i). -/
structure Record (α : Type) where
  body : Except String α
  item : Nat
deriving DecidableEq, Repr

/-- First-match lookup in a string-keyed association list (JS object read). -/
def lookupKey {β : Type} (k : String) : List (String × β) → Option β
  | [] => none
  | (k2, v) :: rest => if k2 = k then some v else lookupKey k rest

/-- JS object property assignment: replace the entry for `k` if present,
otherwise append it. -/
def setKey {β : Type} : List (String × β) → String → β → List (String × β)
  | [], k, v => [(k, v)]
  | (k2, v2) :: rest, k, v =>
    if k2 = k then (k, v) :: rest else (k2, v2) :: setKey rest k v

/-- Maximum chunk size of the large-file upload loop (`const chunkSize = 4e6`). -/
def chunkSize : Nat := 4000000

/-- One chunk PUT request to the upload-session URL: the Content-Range header
fields (`bytes rangeStart-rangeEnd/rangeTotal`), the Content-Length header,
and the chunk body (`dataBuffer.subarray(bytesUploaded, nextChunk)`). -/
structure PutCall where
  rangeStart : Nat
  rangeEnd : Nat
  rangeTotal : Nat
  contentLength : Nat
  body : List Nat
deriving DecidableEq, Repr

/-- The chunk PUT built for offset `bytesUploaded` of one loop iteration:
`nextChunk = Math.min(bytesUploaded + chunkSize, dataBuffer.length)`, the
Content-Range `bytes bytesUploaded-(nextChunk-1)/dataBuffer.length`, and the
body `dataBuffer.subarray(bytesUploaded, nextChunk)`. -/
def mkChunk (buf : List Nat) (bytesUploaded : Nat) : PutCall :=
  let nextChunk := min (bytesUploaded + chunkSize) buf.length
  let data := (buf.drop bytesUploaded).take (nextChunk - bytesUploaded)
  { rangeStart := bytesUploaded, rangeEnd := nextChunk - 1, rangeTotal := buf.length,
    contentLength := data.length, body := data }

/-- The sequence of chunk PUT calls issued by the upload loop
(`for (let bytesUploaded = 0; bytesUploaded < dataBuffer.length;
bytesUploaded += chunkSize)`), starting at offset `bytesUploaded`. -/
def uploadLoop (buf : List Nat) (bytesUploaded : Nat) : List PutCall :=
  if _h : bytesUploaded < buf.length then
    mkChunk buf bytesUploaded :: uploadLoop buf (bytesUploaded + chunkSize)
  else []
termination_by buf.length - bytesUploaded
decreasing_by simp [chunkSize]; omega

/-- All chunk PUT calls for a buffer, from offset 0. -/
def putCalls (buf : List Nat) : List PutCall := uploadLoop buf 0

/-- An HTTP request issued by the `messageAttachment.add` handler:
the upload-session creation POST (message id, attachment name, total size),
a chunk PUT to the session URL, or the small-file attachment POST
(message id, name, base64 `contentBytes`). -/
inductive AddCall where
  | createSession : String → String → Nat → AddCall
  | putChunk : String → PutCall → AddCall
  | postSmall : String → String → String → AddCall
deriving DecidableEq, Repr

/-- The base64 alphabet used by `Buffer.toString with base64`. -/
def base64Chars : List Char :=
  "ABCDEFGHIJKLMNOPQRSTUVWXYZabcdefghijklmnopqrstuvwxyz0123456789+/".data

/-- Character at a 6-bit index of the base64 alphabet. -/
def b64c (n : Nat) : Char := base64Chars.getD n 'A'

/-- Standard base64 encoding of a byte list, with padding, as produced by
`dataBuffer.toString` with base64 encoding on the small-file path. -/
def base64Encode : List Nat → String
  | [] => ""
  | [a] => String.mk [b64c (a / 4), b64c (a % 4 * 16), '=', '=']
  | [a, b] => String.mk [b64c (a / 4), b64c (a % 4 * 16 + b / 16), b64c (b % 16 * 4), '=']
  | a :: b :: c :: rest =>
    String.mk [b64c (a / 4), b64c (a % 4 * 16 + b / 16), b64c (b % 16 * 4 + c / 64),
      b64c (c % 64)] ++ base64Encode rest

/-- Per-item parameters of `messageAttachment.add`: the message id and the
optional `additionalFields.fileName`. -/
structure AddParams where
  messageId : String
  fileNameParam : Option String
deriving DecidableEq, Repr

/-- Filename resolution of `messageAttachment.add`:
`additionalFields.fileName === undefined ? binaryData.fileName :
additionalFields.fileName`. -/
def resolveFileName (params : AddParams) (bd : BinaryData) : Option String :=
  match params.fileNameParam with
  | none => bd.fileName
  | some f => some f

/-- Error message thrown when the item has no binary data at all. -/
def noBinaryMsg : String := "No binary data exists on item!"

/-- Error message thrown when the item lacks the named binary property. -/
def noPropMsg (p : String) : String := "Item has no binary property called " ++ p

/-- Error message thrown when no filename could be resolved. -/
def noFileNameMsg : String :=
  "File name is not set. It has either to be set via Additional Fields or has to be set on the binary property!"

/-- Error message thrown when the upload-session response has no uploadUrl. -/
def noSessionMsg : String := "Failed to get upload session"

/-- The chunk PUT loop with its HTTP oracle: issues the PUT calls of
`putCalls dataBuffer` sequentially in offset order, stopping with the thrown
error if a PUT fails (the loop `await`s each `this.helpers.request` in
turn). Returns the trace of issued calls and the outcome. -/
def runPutCalls (oracle : AddCall → Except String (Option String)) (url : String) :
    List PutCall → List AddCall × Except String Unit
  | [] => ([], .ok ())
  | c :: rest =>
    match oracle (AddCall.putChunk url c) with
    | .error e => ([AddCall.putChunk url c], .error e)
    | .ok _ =>
      (AddCall.putChunk url c :: (runPutCalls oracle url rest).1,
        (runPutCalls oracle url rest).2)

/-- One iteration of the `messageAttachment.add` loop: validation (binary
data present, named property present, filename resolvable and non-empty),
then the strict `dataBuffer.length > 3e6` path decision; the large path
creates an upload session (failing without retry when the response carries
no `uploadUrl`) and runs the chunk loop, the small path issues one POST with
base64 `contentBytes`. Returns the trace of issued HTTP calls and the
outcome. The oracle yields, for a session-creation call, the `uploadUrl`
field of the response (`none` models an absent field). -/
def messageAttachmentAddItem (item : Item) (params : AddParams) (binaryPropertyName : String)
    (oracle : AddCall → Except String (Option String)) : List AddCall × Except String Unit :=
  match item.binary with
  | none => ([], .error noBinaryMsg)
  | some bmap =>
    match lookupKey binaryPropertyName bmap with
    | none => ([], .error (noPropMsg binaryPropertyName))
    | some binaryData =>
      let dataBuffer := binaryData.data
      match resolveFileName params binaryData with
      | none => ([], .error noFileNameMsg)
      | some fn =>
        if fn = "" then ([], .error noFileNameMsg)
        else if dataBuffer.length > 3000000 then
          let sessionCall := AddCall.createSession params.messageId fn dataBuffer.length
          match oracle sessionCall with
          | .error e => ([sessionCall], .error e)
          | .ok none => ([sessionCall], .error noSessionMsg)
          | .ok (some url) =>
            let r := runPutCalls oracle url (putCalls dataBuffer)
            (sessionCall :: r.1, r.2)
        else
          let postCall := AddCall.postSmall params.messageId fn (base64Encode dataBuffer)
          match oracle postCall with
          | .error e => ([postCall], .error e)
          | .ok _ => ([postCall], .ok ())

/-- The result-accumulation dispatch loop with the shared catch pattern:
on a per-item error, continue-on-fail pushes an error record tagged with the
item index and continues, otherwise the error is rethrown. First argument of
the recursion is the current item index, second the number of remaining
items. -/
def accLoopGo {α : Type} (cof : Bool) (handler : Nat → Except String α) :
    Nat → Nat → Except String (List (Record α))
  | _, 0 => .ok []
  | i, fuel + 1 =>
    match handler i with
    | .ok a =>
      match accLoopGo cof handler (i + 1) fuel with
      | .error e2 => .error e2
      | .ok rest => .ok (⟨.ok a, i⟩ :: rest)
    | .error e =>
      if cof then
        match accLoopGo cof handler (i + 1) fuel with
        | .error e2 => .error e2
        | .ok rest => .ok (⟨.error e, i⟩ :: rest)
      else .error e

/-- The result-accumulation loop over items `0 .. n-1`. -/
def accLoop {α : Type} (cof : Bool) (handler : Nat → Except String α) (n : Nat) :
    Except String (List (Record α)) :=
  accLoopGo cof handler 0 n

/-- The `messageAttachment.add` loop: note the binary property name is read
at index 0 (`this.getNodeParameter` with index 0 in the source) on every
iteration. -/
def messageAttachmentAddLoop (cof : Bool) (items : List Item) (params : Nat → AddParams)
    (binaryPropertyNameParam : Nat → String)
    (oracle : Nat → AddCall → Except String (Option String)) :
    Except String (List (Record Unit)) :=
  accLoop cof
    (fun i =>
      (messageAttachmentAddItem (items.getD i default) (params i)
        (binaryPropertyNameParam 0) (oracle i)).2)
    items.length

/-- The shared mutable query-string object `qs` declared once per `execute`
call (`$select`, `$filter`, `$top`). -/
structure QS where
  select : Option String
  filter : Option String
  top : Option Nat
deriving DecidableEq, Repr

/-- The initial empty `qs` object. -/
def emptyQS : QS := ⟨none, none, none⟩

/-- The conditional `qs` mutations shared by the loops:
`if (additionalFields.fields) qs.$select = ...` and
`if (additionalFields.filter) qs.$filter = ...`. -/
def applyQS (qs : QS) (fields filterP : Option String) : QS :=
  let qs1 := match fields with
    | some f => { qs with select := some f }
    | none => qs
  match filterP with
  | some f => { qs1 with filter := some f }
  | none => qs1

/-- Per-item parameters of `message.get`: message id, the optional `fields`
and `filter` additional fields, and the optional
`dataPropertyAttachmentsPrefixName` additional field. -/
structure GetParams where
  messageId : String
  fields : Option String
  filterParam : Option String
  attachmentsDl : Option String
deriving DecidableEq, Repr

/-- The `message.get` loop: mutates the shared `qs`, calls the API, pushes
either the download records (when `dataPropertyAttachmentsPrefixName` is
set) or the single response record, and in the former case returns
`[returnData]` early; errors follow the continue-on-fail catch pattern.
`dl` is the external `downloadAttachments` collaborator, as the list of
records it yields for one message. -/
def messageGetGo {J : Type} (cof : Bool) (params : Nat → GetParams)
    (api : Nat → QS → Except String J) (dl : Nat → J → List J) :
    Nat → QS → Nat → Except String (List (Record J))
  | _, _, 0 => .ok []
  | i, qs, fuel + 1 =>
    let p := params i
    let qs2 := applyQS qs p.fields p.filterParam
    match api i qs2 with
    | .error e =>
      if cof then
        match messageGetGo cof params api dl (i + 1) qs2 fuel with
        | .error e2 => .error e2
        | .ok rest => .ok (⟨.error e, i⟩ :: rest)
      else .error e
    | .ok resp =>
      match p.attachmentsDl with
      | some _ => .ok ((dl i resp).map (fun j => ⟨.ok j, i⟩))
      | none =>
        match messageGetGo cof params api dl (i + 1) qs2 fuel with
        | .error e2 => .error e2
        | .ok rest => .ok (⟨.ok resp, i⟩ :: rest)

/-- The `message.get` loop over items `0 .. n-1`, starting from the empty
shared `qs`. -/
def messageGetLoop {J : Type} (cof : Bool) (params : Nat → GetParams)
    (api : Nat → QS → Except String J) (dl : Nat → J → List J) (n : Nat) :
    Except String (List (Record J)) :=
  messageGetGo cof params api dl 0 emptyQS n

/-- The in-place mutation loop shared by `message.getMime` and
`messageAttachment.download`: on success the item is replaced by the derived
item; on error with continue-on-fail the item's JSON is overwritten with the
error marker (`items[i].json = { error }`) and the loop continues; otherwise
the error is rethrown. -/
def inPlaceLoopGo (cof : Bool) (step : Nat → Item → Except String Item) :
    List Item → Nat → Except String (List Item)
  | [], _ => .ok []
  | it :: rest, i =>
    match step i it with
    | .ok it2 =>
      match inPlaceLoopGo cof step rest (i + 1) with
      | .error e2 => .error e2
      | .ok l => .ok (it2 :: l)
    | .error e =>
      if cof then
        match inPlaceLoopGo cof step rest (i + 1) with
        | .error e2 => .error e2
        | .ok l => .ok ({ it with json := ItemJson.errorMarker e } :: l)
      else .error e

/-- Per-item parameters of `message.getMime`. -/
structure MimeParams where
  messageId : String
  binaryPropertyName : String
deriving DecidableEq, Repr

/-- Response of the raw-content endpoint: the content-type header when
present, and the body bytes. -/
structure MimeResp where
  contentType : Option String
  body : List Nat
deriving DecidableEq, Repr

/-- The binary entry built by `this.helpers.prepareBinaryData` from raw
bytes, a filename and an optional MIME type. -/
def prepareBinaryData (data : List Nat) (fileName : String) (mimeType : Option String) :
    BinaryData :=
  { fileName := some fileName, mimeType := mimeType, data := data }

/-- One iteration of `message.getMime`: fetch the raw MIME form, build a new
item keeping the JSON, shallow-copy the existing binary map, and store the
new entry under the requested property name with filename `messageId.eml`
and the response's content-type header as MIME type. -/
def getMimeItem (item : Item) (p : MimeParams) (resp : Except String MimeResp) :
    Except String Item :=
  match resp with
  | .error e => .error e
  | .ok response =>
    let mimeType := response.contentType
    let base := match item.binary with
      | some m => m
      | none => ([] : List (String × BinaryData))
    let fileName := p.messageId ++ ".eml"
    .ok { json := item.json,
          binary := some (setKey base p.binaryPropertyName
            (prepareBinaryData response.body fileName mimeType)) }

/-- The `message.getMime` loop over the item sequence. -/
def getMimeLoop (cof : Bool) (params : Nat → MimeParams)
    (api : Nat → Except String MimeResp) (items : List Item) :
    Except String (List Item) :=
  inPlaceLoopGo cof (fun i it => getMimeItem it (params i) (api i)) items 0

/-- Per-item parameters of `messageAttachment.download`. -/
structure DownloadParams where
  messageId : String
  attachmentId : String
  binaryPropertyName : String
deriving DecidableEq, Repr

/-- Attachment metadata fetched first by `messageAttachment.download`
(`$select=id,name,contentType`). -/
structure AttachmentDetails where
  name : String
  contentType : Option String
deriving DecidableEq, Repr

/-- One iteration of `messageAttachment.download`: fetch metadata, then the
raw value, then build the derived item exactly as `getMimeItem` does but
with the server-declared filename and MIME type. -/
def downloadItem (item : Item) (p : DownloadParams)
    (details : Except String AttachmentDetails) (value : Except String (List Nat)) :
    Except String Item :=
  match details with
  | .error e => .error e
  | .ok d =>
    match value with
    | .error e => .error e
    | .ok bytes =>
      let base := match item.binary with
        | some m => m
        | none => ([] : List (String × BinaryData))
      .ok { json := item.json,
            binary := some (setKey base p.binaryPropertyName
              (prepareBinaryData bytes d.name d.contentType)) }

/-- The `messageAttachment.download` loop over the item sequence. -/
def downloadLoop (cof : Bool) (params : Nat → DownloadParams)
    (detailsApi : Nat → Except String AttachmentDetails)
    (valueApi : Nat → Except String (List Nat)) (items : List Item) :
    Except String (List Item) :=
  inPlaceLoopGo cof (fun i it => downloadItem it (params i) (detailsApi i) (valueApi i)) items 0

/-- The final output fork of `execute`: `message.getMime` and
`messageAttachment.download` return the (mutated) item sequence itself,
every other (resource, operation) pair returns the accumulated records. -/
def executeOutputFork {X : Type} (resource operation : String)
    (items returnData : List X) : List X :=
  if (resource = "message" ∧ operation = "getMime") ∨
      (resource = "messageAttachment" ∧ operation = "download") then items
  else returnData

/-- Per-item parameters of `message.getAll`. -/
structure GetAllParams where
  returnAll : Bool
  limit : Nat
  fields : Option String
  filterParam : Option String
deriving DecidableEq, Repr

/-- An HTTP request issued by the `message.getAll` loop: either the
paginated all-items request or the single bounded request, with the value of
the shared `qs` object at call time. -/
inductive GetAllCall where
  | allItems : String → QS → GetAllCall
  | single : String → QS → GetAllCall
deriving DecidableEq, Repr

/-- The requests issued by the `message.getAll` loop on the success path:
each iteration mutates the shared `qs` (`$select`, `$filter`, and `$top`
when `returnAll` is false) and issues one request carrying the current `qs`;
the mutated `qs` persists into the next iteration. -/
def messageGetAllCallsGo (params : Nat → GetAllParams) :
    Nat → QS → Nat → List GetAllCall
  | _, _, 0 => []
  | i, qs, fuel + 1 =>
    let p := params i
    let qs2 := applyQS qs p.fields p.filterParam
    if p.returnAll then
      GetAllCall.allItems "/messages" qs2 :: messageGetAllCallsGo params (i + 1) qs2 fuel
    else
      let qs3 := { qs2 with top := some p.limit }
      GetAllCall.single "/messages" qs3 :: messageGetAllCallsGo params (i + 1) qs3 fuel

/-- The requests issued by the `message.getAll` loop over items `0 .. n-1`,
starting from the empty shared `qs`. -/
def messageGetAllCalls (params : Nat → GetAllParams) (n : Nat) : List GetAllCall :=
  messageGetAllCallsGo params 0 emptyQS n

/-! Helper lemmas about the chunk upload loop. -/

theorem chunkSize_pos : 0 < chunkSize := by simp [chunkSize]

theorem uploadLoop_stop (buf : List Nat) (b : Nat) (hb : ¬ b < buf.length) :
    uploadLoop buf b = [] := by
  rw [uploadLoop, dif_neg hb]

theorem uploadLoop_step (buf : List Nat) (b : Nat) (hb : b < buf.length) :
    uploadLoop buf b = mkChunk buf b :: uploadLoop buf (b + chunkSize) := by
  rw [uploadLoop, dif_pos hb]

theorem uploadLoop_flatten_aux (buf : List Nat) :
    ∀ (m b : Nat), buf.length ≤ b + m * chunkSize →
      ((uploadLoop buf b).map PutCall.body).flatten = buf.drop b := by
  intro m
  induction m with
  | zero =>
    intro b hb
    simp only [Nat.zero_mul, Nat.add_zero] at hb
    rw [uploadLoop_stop buf b (by omega)]
    simp [List.drop_eq_nil_of_le hb]
  | succ m ih =>
    intro b hb
    by_cases h : b < buf.length
    · rw [uploadLoop_step buf b h, List.map_cons, List.flatten_cons,
        ih (b + chunkSize) (by simp only [chunkSize] at hb ⊢; omega)]
      simp only [mkChunk]
      by_cases h2 : b + chunkSize ≤ buf.length
      · have hmin : min (b + chunkSize) buf.length = b + chunkSize := by omega
        rw [hmin]
        have hc : b + chunkSize - b = chunkSize := by omega
        rw [hc]
        have h3 := List.take_append_drop chunkSize (buf.drop b)
        rw [List.drop_drop] at h3
        exact h3
      · have hmin : min (b + chunkSize) buf.length = buf.length := by omega
        rw [hmin]
        have hd : buf.drop (b + chunkSize) = [] := List.drop_eq_nil_of_le (by omega)
        rw [hd, List.append_nil]
        have ht : buf.length - b = (buf.drop b).length := by simp
        rw [ht, List.take_length]
    · rw [uploadLoop_stop buf b h]
      simp [List.drop_eq_nil_of_le (by omega : buf.length ≤ b)]

theorem uploadLoop_flatten (buf : List Nat) (b : Nat) :
    ((uploadLoop buf b).map PutCall.body).flatten = buf.drop b := by
  refine uploadLoop_flatten_aux buf buf.length b ?_
  simp only [chunkSize]
  omega

theorem putCalls_flatten (buf : List Nat) :
    ((putCalls buf).map PutCall.body).flatten = buf := by
  have h3 := uploadLoop_flatten buf 0
  rw [List.drop_zero] at h3
  exact h3

theorem uploadLoop_length_aux (buf : List Nat) :
    ∀ (m b : Nat), buf.length ≤ b + m * chunkSize →
      (uploadLoop buf b).length = (buf.length - b + chunkSize - 1) / chunkSize := by
  intro m
  induction m with
  | zero =>
    intro b hb
    simp only [Nat.zero_mul, Nat.add_zero] at hb
    rw [uploadLoop_stop buf b (by omega)]
    have h0 : buf.length - b = 0 := by omega
    rw [h0, Nat.div_eq_of_lt (by simp only [chunkSize]; omega)]
    rfl
  | succ m ih =>
    intro b hb
    by_cases h : b < buf.length
    · rw [uploadLoop_step buf b h, List.length_cons,
        ih (b + chunkSize) (by simp only [chunkSize] at hb ⊢; omega)]
      have hx : buf.length - b + chunkSize - 1 = (buf.length - b - 1) + chunkSize := by
        simp only [chunkSize]; omega
      rw [hx, Nat.add_div_right _ chunkSize_pos]
      by_cases h2 : b + chunkSize ≤ buf.length
      · have hn : buf.length - (b + chunkSize) + chunkSize - 1 = buf.length - b - 1 := by
          simp only [chunkSize] at h2 ⊢; omega
        rw [hn]
      · have hl : buf.length - (b + chunkSize) + chunkSize - 1 = chunkSize - 1 := by
          simp only [chunkSize] at h2 ⊢; omega
        rw [hl, Nat.div_eq_of_lt (by simp only [chunkSize]; omega),
          Nat.div_eq_of_lt (by simp only [chunkSize] at h2 ⊢; omega)]
    · rw [uploadLoop_stop buf b h]
      have h0 : buf.length - b = 0 := by omega
      rw [h0, Nat.div_eq_of_lt (by simp only [chunkSize]; omega)]
      rfl

theorem putCalls_length (buf : List Nat) :
    (putCalls buf).length = (buf.length + chunkSize - 1) / chunkSize := by
  have h3 := uploadLoop_length_aux buf buf.length 0 (by simp only [chunkSize]; omega)
  rw [Nat.sub_zero] at h3
  exact h3

theorem uploadLoop_getElem (buf : List Nat) :
    ∀ (k b : Nat),
      (uploadLoop buf b)[k]? =
        if b + chunkSize * k < buf.length then some (mkChunk buf (b + chunkSize * k))
        else none := by
  intro k
  induction k with
  | zero =>
    intro b
    simp only [Nat.mul_zero, Nat.add_zero]
    by_cases h : b < buf.length
    · rw [uploadLoop_step buf b h, if_pos h, List.getElem?_cons_zero]
    · rw [uploadLoop_stop buf b h, if_neg h, List.getElem?_nil]
  | succ k ih =>
    intro b
    by_cases h : b < buf.length
    · rw [uploadLoop_step buf b h, List.getElem?_cons_succ, ih (b + chunkSize)]
      have harith : b + chunkSize + chunkSize * k = b + chunkSize * (k + 1) := by ring
      rw [harith]
    · rw [uploadLoop_stop buf b h, List.getElem?_nil,
        if_neg (by simp only [chunkSize] at h ⊢; omega)]

theorem putCalls_getElem (buf : List Nat) (k : Nat) :
    (putCalls buf)[k]? =
      if chunkSize * k < buf.length then some (mkChunk buf (chunkSize * k)) else none := by
  have h3 := uploadLoop_getElem buf k 0
  rw [Nat.zero_add] at h3
  exact h3

theorem putCalls_rangeStart (buf : List Nat) (k : Nat) (hk : k < (putCalls buf).length) :
    ∃ c, (putCalls buf)[k]? = some c ∧ PutCall.rangeStart c = chunkSize * k := by
  have h1 : (putCalls buf)[k]? = some ((putCalls buf).get ⟨k, hk⟩) := by
    rw [List.getElem?_eq_getElem hk]
    rfl
  rw [putCalls_getElem] at h1
  by_cases hc : chunkSize * k < buf.length
  · rw [if_pos hc] at h1
    refine ⟨mkChunk buf (chunkSize * k), ?_, rfl⟩
    rw [putCalls_getElem, if_pos hc]
  · rw [if_neg hc] at h1
    exact absurd h1 (by simp)

theorem putCalls_pairwise (buf : List Nat) :
    (putCalls buf).Pairwise (fun a c => PutCall.rangeStart a < PutCall.rangeStart c) := by
  rw [List.pairwise_iff_getElem]
  intro i j hi hj hij
  obtain ⟨ci, hci, hri⟩ := putCalls_rangeStart buf i hi
  obtain ⟨cj, hcj, hrj⟩ := putCalls_rangeStart buf j hj
  rw [List.getElem?_eq_getElem hi] at hci
  rw [List.getElem?_eq_getElem hj] at hcj
  rw [Option.some.injEq] at hci hcj
  rw [← hci] at hri
  rw [← hcj] at hrj
  rw [hri, hrj]
  simp only [chunkSize]
  omega

/-! Helper lemmas about the traced chunk loop. -/

theorem runPutCalls_ok (oracle : AddCall → Except String (Option String)) (url : String)
    (hp : ∀ c, oracle (AddCall.putChunk url c) = Except.ok none) :
    ∀ cs : List PutCall,
      runPutCalls oracle url cs = (cs.map (AddCall.putChunk url), Except.ok ()) := by
  intro cs
  induction cs with
  | nil => rfl
  | cons c rest ih => simp [runPutCalls, hp c, ih]

/-! Helper lemmas about the result-accumulation loop. -/

theorem accLoopGo_true {α : Type} (handler : Nat → Except String α) :
    ∀ (fuel i : Nat),
      accLoopGo true handler i fuel =
        .ok ((List.range' i fuel).map (fun k => (⟨handler k, k⟩ : Record α))) := by
  intro fuel
  induction fuel with
  | zero => intro i; rfl
  | succ fuel ih =>
    intro i
    cases hh : handler i with
    | ok a => simp [accLoopGo, hh, ih (i + 1), List.range'_succ]
    | error e => simp [accLoopGo, hh, ih (i + 1), List.range'_succ]

theorem accLoop_true {α : Type} (handler : Nat → Except String α) (n : Nat) :
    accLoop true handler n =
      .ok ((List.range n).map (fun k => (⟨handler k, k⟩ : Record α))) := by
  rw [accLoop, accLoopGo_true, List.range_eq_range']

theorem accLoopGo_false_abort {α : Type} (handler : Nat → Except String α) (e : String)
    (k : Nat) (hfail : handler k = .error e) :
    ∀ (fuel i : Nat), i ≤ k → k < i + fuel →
      (∀ j, i ≤ j → j < k → ∃ a, handler j = .ok a) →
      accLoopGo false handler i fuel = .error e := by
  intro fuel
  induction fuel with
  | zero => intro i h1 h2 _; omega
  | succ fuel ih =>
    intro i h1 h2 hok
    by_cases hik : i = k
    · subst hik
      simp [accLoopGo, hfail]
    · obtain ⟨a, ha⟩ := hok i le_rfl (by omega)
      have hrec := ih (i + 1) (by omega) (by omega) (fun j hj1 hj2 => hok j (by omega) hj2)
      simp [accLoopGo, ha, hrec]

theorem accLoop_false_abort {α : Type} (handler : Nat → Except String α) (e : String)
    (k n : Nat) (hk : k < n) (hfail : handler k = .error e)
    (hok : ∀ j, j < k → ∃ a, handler j = .ok a) :
    accLoop false handler n = .error e := by
  rw [accLoop]
  exact accLoopGo_false_abort handler e k hfail n 0 (by omega) (by omega)
    (fun j _ hj2 => hok j hj2)

theorem range_map_getElem {α : Type} (f : Nat → α) (n i : Nat) (h : i < n) :
    ((List.range n).map f)[i]? = some (f i) := by
  rw [List.getElem?_map, List.getElem?_range h]
  rfl

/-! Helper lemmas about the message.get loop. -/

theorem messageGetGo_noDl {J : Type} (params : Nat → GetParams)
    (api : Nat → QS → Except String J) (dl : Nat → J → List J) :
    ∀ (fuel i : Nat) (qs : QS),
      (∀ k, i ≤ k → k < i + fuel → (params k).attachmentsDl = none) →
      ∃ out, messageGetGo true params api dl i qs fuel = .ok out ∧ out.length = fuel ∧
        ∀ k, k < fuel → ∃ r, out[k]? = some r ∧ Record.item r = i + k := by
  intro fuel
  induction fuel with
  | zero =>
    intro i qs _
    exact ⟨[], rfl, rfl, fun k hk => absurd hk (by omega)⟩
  | succ fuel ih =>
    intro i qs hnd
    have hstep : ∀ k, i + 1 ≤ k → k < i + 1 + fuel → (params k).attachmentsDl = none :=
      fun k h1 h2 => hnd k (by omega) (by omega)
    obtain ⟨out, ho, hlen, hitem⟩ :=
      ih (i + 1) (applyQS qs (params i).fields (params i).filterParam) hstep
    cases happ : api i (applyQS qs (params i).fields (params i).filterParam) with
    | error e =>
      refine ⟨⟨.error e, i⟩ :: out, ?_, by simp [hlen], ?_⟩
      · simp [messageGetGo, happ, ho]
      · intro k hk
        cases k with
        | zero => exact ⟨⟨.error e, i⟩, by simp, by simp⟩
        | succ k =>
          obtain ⟨r, hr1, hr2⟩ := hitem k (by omega)
          exact ⟨r, by simp [hr1], by omega⟩
    | ok resp =>
      have hd : (params i).attachmentsDl = none := hnd i le_rfl (by omega)
      refine ⟨⟨.ok resp, i⟩ :: out, ?_, by simp [hlen], ?_⟩
      · simp [messageGetGo, happ, hd, ho]
      · intro k hk
        cases k with
        | zero => exact ⟨⟨.ok resp, i⟩, by simp, by simp⟩
        | succ k =>
          obtain ⟨r, hr1, hr2⟩ := hitem k (by omega)
          exact ⟨r, by simp [hr1], by omega⟩

/-! Helper lemmas about the in-place mutation loop. -/

/-- The per-item outcome of one in-place iteration, as a function of the
step result: the derived item on success, the original item with its JSON
overwritten by the error marker when continue-on-fail captures a failure,
and the propagated error otherwise. -/
def inPlaceStepResult (cof : Bool) (step : Nat → Item → Except String Item) (i : Nat)
    (it : Item) : Except String Item :=
  match step i it with
  | .ok it2 => .ok it2
  | .error e => if cof then .ok { it with json := ItemJson.errorMarker e } else .error e

theorem inPlaceLoopGo_spec (cof : Bool) (step : Nat → Item → Except String Item) :
    ∀ (items : List Item) (i : Nat) (out : List Item),
      inPlaceLoopGo cof step items i = .ok out →
      out.length = items.length ∧
      ∀ k, k < items.length →
        inPlaceStepResult cof step (i + k) (items.getD k default) =
          .ok (out.getD k default) := by
  intro items
  induction items with
  | nil =>
    intro i out h
    simp [inPlaceLoopGo] at h
    subst h
    exact ⟨rfl, fun k hk => absurd hk (by simp)⟩
  | cons it rest ih =>
    intro i out h
    cases hs : step i it with
    | ok it2 =>
      cases hrec : inPlaceLoopGo cof step rest (i + 1) with
      | error e2 => simp [inPlaceLoopGo, hs, hrec] at h
      | ok l =>
        simp [inPlaceLoopGo, hs, hrec] at h
        subst h
        obtain ⟨hlen, hk⟩ := ih (i + 1) l hrec
        refine ⟨by simp [hlen], ?_⟩
        intro k hkk
        cases k with
        | zero => simp [inPlaceStepResult, hs]
        | succ k =>
          have h2 := hk k (by simp at hkk; omega)
          have harith : i + (k + 1) = i + 1 + k := by omega
          rw [harith]
          simpa using h2
    | error e =>
      cases cof with
      | false => simp [inPlaceLoopGo, hs] at h
      | true =>
        cases hrec : inPlaceLoopGo true step rest (i + 1) with
        | error e2 => simp [inPlaceLoopGo, hs, hrec] at h
        | ok l =>
          simp [inPlaceLoopGo, hs, hrec] at h
          subst h
          obtain ⟨hlen, hk⟩ := ih (i + 1) l hrec
          refine ⟨by simp [hlen], ?_⟩
          intro k hkk
          cases k with
          | zero => simp [inPlaceStepResult, hs]
          | succ k =>
            have h2 := hk k (by simp at hkk; omega)
            have harith : i + (k + 1) = i + 1 + k := by omega
            rw [harith]
            simpa using h2

theorem inPlaceLoopGo_false_abort (step : Nat → Item → Except String Item) :
    ∀ (items : List Item) (i k : Nat) (e : String), k < items.length →
      step (i + k) (items.getD k default) = .error e →
      (∀ j, j < k → ∃ a, step (i + j) (items.getD j default) = .ok a) →
      inPlaceLoopGo false step items i = .error e := by
  intro items
  induction items with
  | nil => intro i k e hk _ _; simp at hk
  | cons it rest ih =>
    intro i k e hk hfail hok
    cases k with
    | zero =>
      rw [Nat.add_zero] at hfail
      simp only [List.getD_cons_zero] at hfail
      simp [inPlaceLoopGo, hfail]
    | succ k =>
      obtain ⟨a, ha⟩ := hok 0 (by omega)
      rw [Nat.add_zero] at ha
      simp only [List.getD_cons_zero] at ha
      have hrec := ih (i + 1) k e (by simp at hk; omega)
        (by
          have harith : i + 1 + k = i + (k + 1) := by omega
          rw [harith]
          simpa using hfail)
        (by
          intro j hj
          obtain ⟨b, hb⟩ := hok (j + 1) (by omega)
          refine ⟨b, ?_⟩
          have harith : i + 1 + j = i + (j + 1) := by omega
          rw [harith]
          simpa using hb)
      simp [inPlaceLoopGo, ha, hrec]

/-! Helper lemmas about the binary-map operations. -/

theorem lookupKey_setKey_self {β : Type} (m : List (String × β)) (k : String) (v : β) :
    lookupKey k (setKey m k v) = some v := by
  induction m with
  | nil => simp [setKey, lookupKey]
  | cons p rest ih =>
    obtain ⟨a, b⟩ := p
    by_cases h : a = k
    · simp [setKey, h, lookupKey]
    · simp [setKey, h, lookupKey, ih]

theorem lookupKey_setKey_ne {β : Type} (m : List (String × β)) (k k2 : String) (v : β)
    (h : k2 ≠ k) :
    lookupKey k2 (setKey m k v) = lookupKey k2 m := by
  have hkk : ¬ k = k2 := fun h2 => h h2.symm
  induction m with
  | nil => simp [setKey, lookupKey, hkk]
  | cons p rest ih =>
    obtain ⟨a, b⟩ := p
    by_cases h1 : a = k
    · rw [setKey, if_pos h1]
      simp only [lookupKey]
      rw [if_neg hkk, if_neg (by rw [h1]; exact hkk)]
    · rw [setKey, if_neg h1]
      simp only [lookupKey]
      by_cases h2 : a = k2
      · rw [if_pos h2, if_pos h2]
      · rw [if_neg h2, if_neg h2, ih]

/-! Claim theorems. -/

/-- C2: for every buffer of length L > 3,000,000 uploaded by
messageAttachment.add, the large-file path issues exactly ceil(L/4,000,000)
chunk PUT calls in strictly increasing offset order after the single
session-creation call; the k-th PUT carries Content-Range
bytes (4e6*k)-(min(4e6*(k+1),L)-1)/L, the last chunk ends at L-1 with
declared total L, and the chunk bodies concatenated in call order equal the
original buffer exactly. -/
theorem c2_chunked_upload (item : Item) (params : AddParams) (propName url fn : String)
    (oracle : AddCall → Except String (Option String)) (m : List (String × BinaryData))
    (bd : BinaryData)
    (hb : item.binary = some m) (hlk : lookupKey propName m = some bd)
    (hfn : resolveFileName params bd = some fn) (hfn2 : ¬ fn = "")
    (hL : bd.data.length > 3000000)
    (hs : oracle (AddCall.createSession params.messageId fn bd.data.length)
        = Except.ok (some url))
    (hp : ∀ c, oracle (AddCall.putChunk url c) = Except.ok none) :
    messageAttachmentAddItem item params propName oracle =
      (AddCall.createSession params.messageId fn bd.data.length ::
        (putCalls bd.data).map (AddCall.putChunk url), Except.ok ())
    ∧ (putCalls bd.data).length = (bd.data.length + chunkSize - 1) / chunkSize
    ∧ ((putCalls bd.data).map PutCall.body).flatten = bd.data
    ∧ (∀ k, k < (putCalls bd.data).length →
        ∃ c, (putCalls bd.data)[k]? = some c ∧
          PutCall.rangeStart c = chunkSize * k ∧
          PutCall.rangeEnd c = min (chunkSize * (k + 1)) bd.data.length - 1 ∧
          PutCall.rangeTotal c = bd.data.length)
    ∧ (putCalls bd.data).Pairwise (fun a c => PutCall.rangeStart a < PutCall.rangeStart c)
    ∧ (∃ c, (putCalls bd.data).getLast? = some c ∧
        PutCall.rangeEnd c = bd.data.length - 1 ∧
        PutCall.rangeTotal c = bd.data.length) := by
  have hlen := putCalls_length bd.data
  have hdm := Nat.div_add_mod (bd.data.length + chunkSize - 1) chunkSize
  have hmlt : (bd.data.length + chunkSize - 1) % chunkSize < chunkSize :=
    Nat.mod_lt _ chunkSize_pos
  have hkth : ∀ k, k < (putCalls bd.data).length →
      ∃ c, (putCalls bd.data)[k]? = some c ∧
        PutCall.rangeStart c = chunkSize * k ∧
        PutCall.rangeEnd c = min (chunkSize * (k + 1)) bd.data.length - 1 ∧
        PutCall.rangeTotal c = bd.data.length := by
    intro k hk
    rw [hlen] at hk
    have hck : chunkSize * k < bd.data.length := by
      simp only [chunkSize] at hdm hmlt hk ⊢
      omega
    refine ⟨mkChunk bd.data (chunkSize * k), ?_, rfl, ?_, rfl⟩
    · rw [putCalls_getElem, if_pos hck]
    · show min (chunkSize * k + chunkSize) bd.data.length - 1 = _
      have harith : chunkSize * k + chunkSize = chunkSize * (k + 1) := by ring
      rw [harith]
  refine ⟨?_, hlen, putCalls_flatten bd.data, hkth, putCalls_pairwise bd.data, ?_⟩
  · simp [messageAttachmentAddItem, hb, hlk, hfn, hfn2, hL, hs,
      runPutCalls_ok oracle url hp]
  · have hpos : 0 < (putCalls bd.data).length := by
      rw [hlen]
      simp only [chunkSize] at hdm hmlt ⊢
      omega
    obtain ⟨c, hc1, hc2, hc3, hc4⟩ :=
      hkth ((putCalls bd.data).length - 1) (by omega)
    refine ⟨c, ?_, ?_, hc4⟩
    · rw [List.getLast?_eq_getElem?]
      exact hc1
    · rw [hc3, hlen]
      have hub : bd.data.length ≤
          chunkSize * ((bd.data.length + chunkSize - 1) / chunkSize - 1 + 1) := by
        simp only [chunkSize] at hdm hmlt ⊢
        omega
      have hmin : min (chunkSize * ((bd.data.length + chunkSize - 1) / chunkSize - 1 + 1))
          bd.data.length = bd.data.length := by omega
      rw [hmin]

/-- C2 witness: the theorem instantiated at a concrete 3,000,001-byte buffer
with a compliant HTTP oracle. -/
def c2bd : BinaryData := ⟨some "f", none, List.replicate 3000001 0⟩

/-- C2 witness item: one item holding the buffer under property data. -/
def c2item : Item := ⟨ItemJson.payload 0, some [("data", c2bd)]⟩

/-- C2 witness oracle: session creation yields a session URL, chunk PUTs
succeed. -/
def c2oracle : AddCall → Except String (Option String)
  | AddCall.createSession _ _ _ => .ok (some "u")
  | _ => .ok none

theorem c2_chunked_upload_witness :
    messageAttachmentAddItem c2item ⟨"m1", none⟩ "data" c2oracle =
      (AddCall.createSession "m1" "f" c2bd.data.length ::
        (putCalls c2bd.data).map (AddCall.putChunk "u"), Except.ok ())
    ∧ (putCalls c2bd.data).length = (c2bd.data.length + chunkSize - 1) / chunkSize
    ∧ ((putCalls c2bd.data).map PutCall.body).flatten = c2bd.data
    ∧ (∀ k, k < (putCalls c2bd.data).length →
        ∃ c, (putCalls c2bd.data)[k]? = some c ∧
          PutCall.rangeStart c = chunkSize * k ∧
          PutCall.rangeEnd c = min (chunkSize * (k + 1)) c2bd.data.length - 1 ∧
          PutCall.rangeTotal c = c2bd.data.length)
    ∧ (putCalls c2bd.data).Pairwise (fun a c => PutCall.rangeStart a < PutCall.rangeStart c)
    ∧ (∃ c, (putCalls c2bd.data).getLast? = some c ∧
        PutCall.rangeEnd c = c2bd.data.length - 1 ∧
        PutCall.rangeTotal c = c2bd.data.length) :=
  c2_chunked_upload c2item ⟨"m1", none⟩ "data" "u" "f" c2oracle [("data", c2bd)] c2bd
    rfl rfl rfl (by decide)
    (by simp only [c2bd, List.length_replicate]; omega)
    rfl (fun c => rfl)

/-- C3: the transfer path of messageAttachment.add is selected by strict
greater-than against 3,000,000 bytes: a buffer of length exactly 3,000,000
takes the small-file path (a single POST with base64 contentBytes), a
buffer of length 3,000,001 takes the large-file chunked-session path. -/
theorem c3_path_selection (item : Item) (params : AddParams) (propName url fn : String)
    (oracle : AddCall → Except String (Option String)) (m : List (String × BinaryData))
    (bd : BinaryData)
    (hb : item.binary = some m) (hlk : lookupKey propName m = some bd)
    (hfn : resolveFileName params bd = some fn) (hfn2 : ¬ fn = "")
    (hs : ∀ sz, oracle (AddCall.createSession params.messageId fn sz) = Except.ok (some url))
    (hp : ∀ c, oracle (AddCall.putChunk url c) = Except.ok none) :
    (bd.data.length = 3000000 →
      (messageAttachmentAddItem item params propName oracle).1
        = [AddCall.postSmall params.messageId fn (base64Encode bd.data)])
    ∧ (bd.data.length = 3000001 →
      (messageAttachmentAddItem item params propName oracle).1
        = AddCall.createSession params.messageId fn bd.data.length ::
            (putCalls bd.data).map (AddCall.putChunk url)) := by
  constructor
  · intro h1
    have hgt : ¬ bd.data.length > 3000000 := by omega
    cases hpost : oracle (AddCall.postSmall params.messageId fn (base64Encode bd.data)) with
    | error e => simp [messageAttachmentAddItem, hb, hlk, hfn, hfn2, hgt, hpost]
    | ok v => simp [messageAttachmentAddItem, hb, hlk, hfn, hfn2, hgt, hpost]
  · intro h1
    have hgt : bd.data.length > 3000000 := by omega
    simp [messageAttachmentAddItem, hb, hlk, hfn, hfn2, hgt, hs bd.data.length,
      runPutCalls_ok oracle url hp]

/-- C3 witness buffer of length exactly 3,000,000. -/
def c3bd : BinaryData := ⟨some "f", none, List.replicate 3000000 0⟩

/-- C3 witness item. -/
def c3item : Item := ⟨ItemJson.payload 0, some [("data", c3bd)]⟩

theorem c3_path_selection_witness :
    (c3bd.data.length = 3000000 →
      (messageAttachmentAddItem c3item ⟨"m1", none⟩ "data" c2oracle).1
        = [AddCall.postSmall "m1" "f" (base64Encode c3bd.data)])
    ∧ (c3bd.data.length = 3000001 →
      (messageAttachmentAddItem c3item ⟨"m1", none⟩ "data" c2oracle).1
        = AddCall.createSession "m1" "f" c3bd.data.length ::
            (putCalls c3bd.data).map (AddCall.putChunk "u")) :=
  c3_path_selection c3item ⟨"m1", none⟩ "data" "u" "f" c2oracle [("data", c3bd)] c3bd
    rfl rfl rfl (by decide) (fun sz => rfl) (fun c => rfl)

/-- C5: in a large-file upload of messageAttachment.add, when the
upload-session creation response carries no uploadUrl, a fatal error is
raised for that item before any chunk PUT is issued (the trace is exactly
the single session-creation call, not retried), and under continue-on-fail
the error becomes that item's error record while the loop produces a record
for every item. -/
theorem c5_no_upload_url (item : Item) (params : AddParams) (propName fn : String)
    (oracle : AddCall → Except String (Option String)) (m : List (String × BinaryData))
    (bd : BinaryData)
    (hb : item.binary = some m) (hlk : lookupKey propName m = some bd)
    (hfn : resolveFileName params bd = some fn) (hfn2 : ¬ fn = "")
    (hL : bd.data.length > 3000000)
    (hs : oracle (AddCall.createSession params.messageId fn bd.data.length)
        = Except.ok none) :
    messageAttachmentAddItem item params propName oracle =
      ([AddCall.createSession params.messageId fn bd.data.length], .error noSessionMsg)
    ∧ (∀ u c, AddCall.putChunk u c ∉ (messageAttachmentAddItem item params propName oracle).1)
    ∧ ∀ (itemsL : List Item) (paramsF : Nat → AddParams) (pnF : Nat → String)
        (oracleF : Nat → AddCall → Except String (Option String)) (i : Nat),
        i < itemsL.length → itemsL.getD i default = item → paramsF i = params →
        pnF 0 = propName → oracleF i = oracle →
        messageAttachmentAddLoop true itemsL paramsF pnF oracleF =
          .ok ((List.range itemsL.length).map (fun k =>
            (⟨(messageAttachmentAddItem (itemsL.getD k default) (paramsF k) (pnF 0)
                (oracleF k)).2, k⟩ : Record Unit)))
        ∧ ((List.range itemsL.length).map (fun k =>
            (⟨(messageAttachmentAddItem (itemsL.getD k default) (paramsF k) (pnF 0)
                (oracleF k)).2, k⟩ : Record Unit)))[i]? =
              some ⟨.error noSessionMsg, i⟩ := by
  have hmain : messageAttachmentAddItem item params propName oracle =
      ([AddCall.createSession params.messageId fn bd.data.length], .error noSessionMsg) := by
    simp [messageAttachmentAddItem, hb, hlk, hfn, hfn2, hL, hs]
  refine ⟨hmain, ?_, ?_⟩
  · intro u c
    rw [hmain]
    simp
  · intro itemsL paramsF pnF oracleF i hi hgetD hparams hpn horacle
    refine ⟨accLoop_true _ itemsL.length, ?_⟩
    rw [range_map_getElem _ itemsL.length i hi, hgetD, hparams, hpn, horacle, hmain]

/-- C5 witness oracle: the session-creation response has no uploadUrl. -/
def c5oracle : AddCall → Except String (Option String)
  | AddCall.createSession _ _ _ => .ok none
  | _ => .ok none

theorem c5_no_upload_url_witness :
    messageAttachmentAddItem c2item ⟨"m1", none⟩ "data" c5oracle =
      ([AddCall.createSession "m1" "f" c2bd.data.length], .error noSessionMsg)
    ∧ (∀ u c, AddCall.putChunk u c ∉ (messageAttachmentAddItem c2item ⟨"m1", none⟩ "data"
        c5oracle).1)
    ∧ ∀ (itemsL : List Item) (paramsF : Nat → AddParams) (pnF : Nat → String)
        (oracleF : Nat → AddCall → Except String (Option String)) (i : Nat),
        i < itemsL.length → itemsL.getD i default = c2item → paramsF i = ⟨"m1", none⟩ →
        pnF 0 = "data" → oracleF i = c5oracle →
        messageAttachmentAddLoop true itemsL paramsF pnF oracleF =
          .ok ((List.range itemsL.length).map (fun k =>
            (⟨(messageAttachmentAddItem (itemsL.getD k default) (paramsF k) (pnF 0)
                (oracleF k)).2, k⟩ : Record Unit)))
        ∧ ((List.range itemsL.length).map (fun k =>
            (⟨(messageAttachmentAddItem (itemsL.getD k default) (paramsF k) (pnF 0)
                (oracleF k)).2, k⟩ : Record Unit)))[i]? =
              some ⟨.error noSessionMsg, i⟩ :=
  c5_no_upload_url c2item ⟨"m1", none⟩ "data" "f" c5oracle [("data", c2bd)] c2bd
    rfl rfl rfl (by decide)
    (by simp only [c2bd, List.length_replicate]; omega)
    rfl

/-- C8: in messageAttachment.add, a validation error (no binary data on the
item, missing named binary property, or no resolvable filename) is raised
before any HTTP call for that item (the call trace is empty, so nothing is
retried), and under continue-on-fail it becomes that item's error record
while the loop still produces one record per item. -/
theorem c8_validation (item : Item) (params : AddParams) (propName : String)
    (oracle : AddCall → Except String (Option String))
    (hval : item.binary = none
      ∨ (∃ m, item.binary = some m ∧ lookupKey propName m = none)
      ∨ (∃ m bd, item.binary = some m ∧ lookupKey propName m = some bd ∧
          (resolveFileName params bd = none ∨ resolveFileName params bd = some ""))) :
    (∃ e, messageAttachmentAddItem item params propName oracle = ([], .error e))
    ∧ ∀ (itemsL : List Item) (paramsF : Nat → AddParams) (pnF : Nat → String)
        (oracleF : Nat → AddCall → Except String (Option String)) (i : Nat),
        i < itemsL.length → itemsL.getD i default = item → paramsF i = params →
        pnF 0 = propName → oracleF i = oracle →
        messageAttachmentAddLoop true itemsL paramsF pnF oracleF =
          .ok ((List.range itemsL.length).map (fun k =>
            (⟨(messageAttachmentAddItem (itemsL.getD k default) (paramsF k) (pnF 0)
                (oracleF k)).2, k⟩ : Record Unit)))
        ∧ ∃ e, ((List.range itemsL.length).map (fun k =>
            (⟨(messageAttachmentAddItem (itemsL.getD k default) (paramsF k) (pnF 0)
                (oracleF k)).2, k⟩ : Record Unit)))[i]? = some ⟨.error e, i⟩ := by
  have hmain : ∃ e, messageAttachmentAddItem item params propName oracle = ([], .error e) := by
    rcases hval with h1 | ⟨m, h1, h2⟩ | ⟨m, bd, h1, h2, h3⟩
    · exact ⟨noBinaryMsg, by simp [messageAttachmentAddItem, h1]⟩
    · exact ⟨noPropMsg propName, by simp [messageAttachmentAddItem, h1, h2]⟩
    · rcases h3 with h3 | h3
      · exact ⟨noFileNameMsg, by simp [messageAttachmentAddItem, h1, h2, h3]⟩
      · exact ⟨noFileNameMsg, by simp [messageAttachmentAddItem, h1, h2, h3]⟩
  obtain ⟨e, he⟩ := hmain
  refine ⟨⟨e, he⟩, ?_⟩
  intro itemsL paramsF pnF oracleF i hi hgetD hparams hpn horacle
  refine ⟨accLoop_true _ itemsL.length, e, ?_⟩
  rw [range_map_getElem _ itemsL.length i hi, hgetD, hparams, hpn, horacle, he]

/-- C8 witness: an item with no binary data at all. -/
def c8item : Item := ⟨ItemJson.payload 0, none⟩

theorem c8_validation_witness :
    (∃ e, messageAttachmentAddItem c8item ⟨"m1", none⟩ "data" c5oracle = ([], .error e))
    ∧ ∀ (itemsL : List Item) (paramsF : Nat → AddParams) (pnF : Nat → String)
        (oracleF : Nat → AddCall → Except String (Option String)) (i : Nat),
        i < itemsL.length → itemsL.getD i default = c8item → paramsF i = ⟨"m1", none⟩ →
        pnF 0 = "data" → oracleF i = c5oracle →
        messageAttachmentAddLoop true itemsL paramsF pnF oracleF =
          .ok ((List.range itemsL.length).map (fun k =>
            (⟨(messageAttachmentAddItem (itemsL.getD k default) (paramsF k) (pnF 0)
                (oracleF k)).2, k⟩ : Record Unit)))
        ∧ ∃ e, ((List.range itemsL.length).map (fun k =>
            (⟨(messageAttachmentAddItem (itemsL.getD k default) (paramsF k) (pnF 0)
                (oracleF k)).2, k⟩ : Record Unit)))[i]? = some ⟨.error e, i⟩ :=
  c8_validation c8item ⟨"m1", none⟩ "data" c5oracle (Or.inl rfl)

/-- C10: the messageAttachment.add loop resolves the binary property name
once at item index 0 and reuses it for every item: the loop's behaviour
depends only on index 0 of the binaryPropertyName parameter, and each item
is handled with that index-0 name. -/
theorem c10_item0_name (items : List Item) (params : Nat → AddParams) (cof : Bool)
    (oracle : Nat → AddCall → Except String (Option String)) (f g : Nat → String)
    (hfg : f 0 = g 0) :
    messageAttachmentAddLoop cof items params f oracle =
      messageAttachmentAddLoop cof items params g oracle
    ∧ messageAttachmentAddLoop cof items params f oracle =
        messageAttachmentAddLoop cof items params (fun _ => f 0) oracle
    ∧ messageAttachmentAddLoop cof items params f oracle =
        accLoop cof (fun i => (messageAttachmentAddItem (items.getD i default) (params i)
          (f 0) (oracle i)).2) items.length := by
  refine ⟨?_, rfl, rfl⟩
  simp only [messageAttachmentAddLoop, hfg]

/-- C10 witness name parameters: equal at index 0, different elsewhere. -/
def c10f : Nat → String := fun i => if i = 0 then "data" else "x"

/-- C10 witness name parameters, second version. -/
def c10g : Nat → String := fun i => if i = 0 then "data" else "y"

theorem c10_item0_name_witness :
    messageAttachmentAddLoop true [c2item, c8item] (fun _ => ⟨"m1", none⟩)
        c10f (fun _ => c5oracle) =
      messageAttachmentAddLoop true [c2item, c8item] (fun _ => ⟨"m1", none⟩)
        c10g (fun _ => c5oracle)
    ∧ messageAttachmentAddLoop true [c2item, c8item] (fun _ => ⟨"m1", none⟩)
        c10f (fun _ => c5oracle) =
      messageAttachmentAddLoop true [c2item, c8item] (fun _ => ⟨"m1", none⟩)
        (fun _ => c10f 0) (fun _ => c5oracle)
    ∧ messageAttachmentAddLoop true [c2item, c8item] (fun _ => ⟨"m1", none⟩)
        c10f (fun _ => c5oracle) =
      accLoop true (fun i => (messageAttachmentAddItem ([c2item, c8item].getD i default)
        ((fun _ => (⟨"m1", none⟩ : AddParams)) i) (c10f 0) ((fun _ => c5oracle) i)).2)
        [c2item, c8item].length :=
  c10_item0_name [c2item, c8item] (fun _ => ⟨"m1", none⟩) true (fun _ => c5oracle)
    c10f c10g rfl

/-- C7: with continue-on-fail disabled, the first failing item aborts the
batch in both loop families: the result-accumulation loop and the in-place
getMime loop rethrow exactly that item's error, and no output list is
produced at all (hence no records for any later item). -/
theorem c7_abort {α : Type} (handler : Nat → Except String α) (n k : Nat) (e : String)
    (params : Nat → MimeParams) (api : Nat → Except String MimeResp) (items : List Item)
    (k2 : Nat) (e2 : String)
    (hk : k < n) (hfail : handler k = .error e)
    (hok : ∀ j, j < k → ∃ a, handler j = .ok a)
    (hk2 : k2 < items.length)
    (hfail2 : getMimeItem (items.getD k2 default) (params k2) (api k2) = .error e2)
    (hok2 : ∀ j, j < k2 →
      ∃ a, getMimeItem (items.getD j default) (params j) (api j) = .ok a) :
    (accLoop false handler n = .error e
      ∧ ∀ out, accLoop false handler n ≠ .ok out)
    ∧ (getMimeLoop false params api items = .error e2
      ∧ ∀ out, getMimeLoop false params api items ≠ .ok out) := by
  have h1 := accLoop_false_abort handler e k n hk hfail hok
  have h2 : getMimeLoop false params api items = .error e2 := by
    refine inPlaceLoopGo_false_abort _ items 0 k2 e2 hk2 ?_ ?_
    · rw [Nat.zero_add]
      exact hfail2
    · intro j hj
      rw [Nat.zero_add]
      exact hok2 j hj
  refine ⟨⟨h1, fun out ho => ?_⟩, ⟨h2, fun out ho => ?_⟩⟩
  · rw [h1] at ho
    exact Except.noConfusion ho
  · rw [h2] at ho
    exact Except.noConfusion ho

/-- C7 witness handler: item 2 of 5 fails; item 1 succeeds; items 3-5
would succeed but are never reached. -/
def c7handler : Nat → Except String Nat := fun j => if j = 1 then .error "boom" else .ok 0

/-- C7 witness getMime oracle: the single item's request throws. -/
def c7api : Nat → Except String MimeResp := fun _ => .error "down"

theorem c7_abort_witness :
    (accLoop false c7handler 5 = .error "boom"
      ∧ ∀ out, accLoop false c7handler 5 ≠ .ok out)
    ∧ (getMimeLoop false (fun _ => ⟨"m1", "data"⟩) c7api [c8item] = .error "down"
      ∧ ∀ out, getMimeLoop false (fun _ => ⟨"m1", "data"⟩) c7api [c8item] ≠ .ok out) :=
  c7_abort c7handler 5 1 "boom" (fun _ => ⟨"m1", "data"⟩) c7api [c8item] 0 "down"
    (by omega) rfl
    (fun j hj => ⟨0, by
      have h0 : j = 0 := by omega
      subst h0
      rfl⟩)
    (by simp) rfl
    (fun j hj => absurd hj (by omega))

/-- C1 parameters for the counterexample: every item enables the
attachment-download option (dataPropertyAttachmentsPrefixName). -/
def c1params : Nat → GetParams := fun _ => ⟨"m", none, none, some "att"⟩

/-- C1 counterexample API oracle: every request succeeds. -/
def c1api : Nat → QS → Except String Nat := fun _ _ => .ok 0

/-- C1 counterexample downloadAttachments collaborator: one record per
message. -/
def c1dl : Nat → Nat → List Nat := fun _ r => [r]

/-- C1 counterexample: message.get over two items with continue-on-fail
enabled and the attachment-download option set returns a single record
(tagged with item 0) because of the early return after item 0 - not two
records as the claim requires. -/
theorem c1_counterexample :
    messageGetLoop true c1params c1api c1dl 2 = .ok [⟨Except.ok 0, 0⟩]
    ∧ ¬ ∃ out, messageGetLoop true c1params c1api c1dl 2 = .ok out ∧
        out.length = 2 := by
  have h0 : messageGetLoop true c1params c1api c1dl 2 = .ok [⟨Except.ok 0, 0⟩] := rfl
  refine ⟨h0, ?_⟩
  rintro ⟨out, h1, h2⟩
  rw [h0, Except.ok.injEq] at h1
  rw [← h1] at h2
  simp at h2

/-- C1 amended: with continue-on-fail enabled, a result-accumulation loop
(the shared catch pattern) produces exactly one record per item, tagged with
its origin index, success payload or error marker alike; and message.get
does so too provided the attachment-download option is not set on any item
(with the option set, the loop returns early after the first successfully
processed item). -/
theorem c1_amended {J α : Type} (params : Nat → GetParams) (api : Nat → QS → Except String J)
    (dl : Nat → J → List J) (handler : Nat → Except String α) (n : Nat)
    (hpre : ∀ i, i < n → (params i).attachmentsDl = none) :
    (∃ out, messageGetLoop true params api dl n = .ok out ∧ out.length = n ∧
      ∀ k, k < n → ∃ r, out[k]? = some r ∧ Record.item r = k)
    ∧ accLoop true handler n =
        .ok ((List.range n).map (fun k => (⟨handler k, k⟩ : Record α)))
    ∧ ∀ k, k < n →
        ((List.range n).map (fun k => (⟨handler k, k⟩ : Record α)))[k]? =
          some ⟨handler k, k⟩ := by
  refine ⟨?_, accLoop_true handler n, fun k hk => range_map_getElem _ n k hk⟩
  obtain ⟨out, h1, h2, h3⟩ := messageGetGo_noDl params api dl n 0 emptyQS
    (fun k hk1 hk2 => hpre k (by omega))
  refine ⟨out, h1, h2, fun k hk => ?_⟩
  obtain ⟨r, hr1, hr2⟩ := h3 k hk
  exact ⟨r, hr1, by omega⟩

/-- C1 amended witness parameters: no attachment-download option. -/
def c1paramsPlain : Nat → GetParams := fun _ => ⟨"m", none, none, none⟩

theorem c1_amended_witness :
    (∃ out, messageGetLoop true c1paramsPlain c1api c1dl 3 = .ok out ∧ out.length = 3 ∧
      ∀ k, k < 3 → ∃ r, out[k]? = some r ∧ Record.item r = k)
    ∧ accLoop true c7handler 3 =
        .ok ((List.range 3).map (fun k => (⟨c7handler k, k⟩ : Record Nat)))
    ∧ ∀ k, k < 3 →
        ((List.range 3).map (fun k => (⟨c7handler k, k⟩ : Record Nat)))[k]? =
          some ⟨c7handler k, k⟩ :=
  c1_amended c1paramsPlain c1api c1dl c7handler 3 (fun _ _ => rfl)

/-- C4: for every completed run of an in-place mutation operation
(message.getMime or messageAttachment.download), the output sequence has the
input's length and output position k is the per-item transform of input
position k; under continue-on-fail a failing item keeps its identity with
its JSON overwritten by the error marker; and the final output fork of
execute returns the (mutated) item sequence itself for these two
operations. -/
theorem c4_in_place (cof : Bool) (params : Nat → MimeParams)
    (api : Nat → Except String MimeResp) (dparams : Nat → DownloadParams)
    (dapi : Nat → Except String AttachmentDetails) (vapi : Nat → Except String (List Nat))
    (items ditems out dout : List Item)
    (h : getMimeLoop cof params api items = .ok out)
    (h2 : downloadLoop cof dparams dapi vapi ditems = .ok dout) :
    (out.length = items.length ∧
      (∀ k, k < items.length →
        inPlaceStepResult cof (fun i it => getMimeItem it (params i) (api i)) k
          (items.getD k default) = .ok (out.getD k default)) ∧
      (∀ k e, k < items.length →
        getMimeItem (items.getD k default) (params k) (api k) = .error e → cof = true →
        out.getD k default =
          { items.getD k default with json := ItemJson.errorMarker e }))
    ∧ (dout.length = ditems.length ∧
      ∀ k, k < ditems.length →
        inPlaceStepResult cof (fun i it => downloadItem it (dparams i) (dapi i) (vapi i)) k
          (ditems.getD k default) = .ok (dout.getD k default))
    ∧ ∀ (rd : List Item), executeOutputFork "message" "getMime" out rd = out
        ∧ executeOutputFork "messageAttachment" "download" dout rd = dout := by
  obtain ⟨hlen, hk⟩ :=
    inPlaceLoopGo_spec cof (fun i it => getMimeItem it (params i) (api i)) items 0 out h
  obtain ⟨hdlen, hdk⟩ :=
    inPlaceLoopGo_spec cof (fun i it => downloadItem it (dparams i) (dapi i) (vapi i))
      ditems 0 dout h2
  have hk0 : ∀ k, k < items.length →
      inPlaceStepResult cof (fun i it => getMimeItem it (params i) (api i)) k
        (items.getD k default) = .ok (out.getD k default) := by
    intro k hkk
    have h3 := hk k hkk
    rw [Nat.zero_add] at h3
    exact h3
  refine ⟨⟨hlen, hk0, ?_⟩, ⟨hdlen, ?_⟩, ?_⟩
  · intro k e hkk he hcof
    have h3 := hk0 k hkk
    rw [inPlaceStepResult] at h3
    simp only [he, hcof] at h3
    rw [if_pos trivial] at h3
    rw [Except.ok.injEq] at h3
    exact h3.symm
  · intro k hkk
    have h3 := hdk k hkk
    rw [Nat.zero_add] at h3
    exact h3
  · intro rd
    constructor
    · rw [executeOutputFork, if_pos (by decide)]
    · rw [executeOutputFork, if_pos (by decide)]

/-- C4 witness input items: one item with an existing binary field, one
item that will fail. -/
def c4items : List Item :=
  [⟨ItemJson.payload 1, some [("invoice", ⟨some "i.pdf", none, [3]⟩)]⟩,
   ⟨ItemJson.payload 2, none⟩]

/-- C4 witness getMime API oracle: item 0 succeeds, item 1 throws. -/
def c4api : Nat → Except String MimeResp :=
  fun i => if i = 0 then .ok ⟨some "ct", [7]⟩ else .error "boom"

/-- C4 witness output of the getMime loop. -/
def c4out : List Item :=
  [⟨ItemJson.payload 1,
    some [("invoice", ⟨some "i.pdf", none, [3]⟩),
      ("data", ⟨some "m1.eml", some "ct", [7]⟩)]⟩,
   ⟨ItemJson.errorMarker "boom", none⟩]

/-- C4 witness output of the download loop. -/
def c4dout : List Item :=
  [⟨ItemJson.payload 0,
    some [("data", ⟨some "file.pdf", some "application/pdf", [9]⟩)]⟩]

theorem c4_in_place_witness :
    (c4out.length = c4items.length ∧
      (∀ k, k < c4items.length →
        inPlaceStepResult true (fun i it => getMimeItem it ((fun _ =>
            (⟨"m1", "data"⟩ : MimeParams)) i) (c4api i)) k
          (c4items.getD k default) = .ok (c4out.getD k default)) ∧
      (∀ k e, k < c4items.length →
        getMimeItem (c4items.getD k default) ((fun _ => (⟨"m1", "data"⟩ : MimeParams)) k)
            (c4api k) = .error e → true = true →
        c4out.getD k default =
          { c4items.getD k default with json := ItemJson.errorMarker e }))
    ∧ (c4dout.length = ([c8item] : List Item).length ∧
      ∀ k, k < ([c8item] : List Item).length →
        inPlaceStepResult true (fun i it => downloadItem it ((fun _ =>
            (⟨"m1", "a1", "data"⟩ : DownloadParams)) i) ((fun _ => Except.ok
            (⟨"file.pdf", some "application/pdf"⟩ : AttachmentDetails)) i)
            ((fun _ => Except.ok [9]) i)) k
          (([c8item] : List Item).getD k default) = .ok (c4dout.getD k default))
    ∧ ∀ (rd : List Item), executeOutputFork "message" "getMime" c4out rd = c4out
        ∧ executeOutputFork "messageAttachment" "download" c4dout rd = c4dout :=
  c4_in_place true (fun _ => ⟨"m1", "data"⟩) c4api (fun _ => ⟨"m1", "a1", "data"⟩)
    (fun _ => .ok ⟨"file.pdf", some "application/pdf"⟩) (fun _ => .ok [9])
    c4items [c8item] c4out c4dout rfl rfl

/-- C6 pre-existing binary entry used by the counterexample. -/
def c6old : BinaryData := ⟨some "old.txt", some "text/plain", [1]⟩

/-- C6 counterexample item: its existing binary field shares the requested
property name. -/
def c6item : Item := ⟨ItemJson.payload 0, some [("data", c6old)]⟩

/-- C6 counterexample: message.getMime with requested property name data on
an item that already has a binary field named data replaces that field with
the downloaded entry, so the pre-existing field does not remain unchanged as
the claim requires. -/
theorem c6_counterexample :
    getMimeItem c6item ⟨"m1", "data"⟩ (.ok ⟨some "message/rfc822", [7, 8]⟩) =
      .ok ⟨ItemJson.payload 0,
        some [("data", ⟨some "m1.eml", some "message/rfc822", [7, 8]⟩)]⟩
    ∧ lookupKey "data"
        [("data", (⟨some "m1.eml", some "message/rfc822", [7, 8]⟩ : BinaryData))]
        ≠ some c6old :=
  ⟨rfl, by decide⟩

/-- C6 amended: message.getMime stores the new binary entry under the
requested property name with filename messageId.eml and the response's
content-type header as MIME type when that header is present, and every
binary field already present under a name different from the requested one
remains present and unchanged; a pre-existing field under the requested name
itself is overwritten. -/
theorem c6_getmime_binary (item : Item) (p : MimeParams) (r : MimeResp) (ct : String)
    (hct : r.contentType = some ct) :
    ∃ out, getMimeItem item p (.ok r) = .ok out ∧ Item.json out = item.json ∧
      ∃ m2, Item.binary out = some m2 ∧
        lookupKey p.binaryPropertyName m2 =
          some (prepareBinaryData r.body (p.messageId ++ ".eml") (some ct)) ∧
        ∀ k2, ¬ k2 = p.binaryPropertyName →
          lookupKey k2 m2 = lookupKey k2 ((Item.binary item).getD []) := by
  refine ⟨_, rfl, rfl, _, rfl, ?_, ?_⟩
  · rw [← hct]
    exact lookupKey_setKey_self _ _ _
  · intro k2 hk2
    rw [lookupKey_setKey_ne _ _ _ _ hk2]
    cases hbin : item.binary with
    | none => rfl
    | some mm => rfl

theorem c6_getmime_binary_witness :
    ∃ out, getMimeItem c6item ⟨"m1", "data"⟩ (.ok ⟨some "message/rfc822", [7, 8]⟩) =
      .ok out ∧ Item.json out = c6item.json ∧
      ∃ m2, Item.binary out = some m2 ∧
        lookupKey "data" m2 = some (prepareBinaryData [7, 8] ("m1" ++ ".eml")
          (some "message/rfc822")) ∧
        ∀ k2, ¬ k2 = "data" →
          lookupKey k2 m2 = lookupKey k2 ((Item.binary c6item).getD []) :=
  c6_getmime_binary c6item ⟨"m1", "data"⟩ ⟨some "message/rfc822", [7, 8]⟩
    "message/rfc822" rfl

/-- C9 parameter schedule: item 0 sets select, filter and a top limit; item
1 omits all of them (returnAll with no additional fields). -/
def c9paramsA : Nat → GetAllParams := fun i =>
  if i = 0 then ⟨false, 7, some "subject", some "flt"⟩ else ⟨true, 9, none, none⟩

/-- C9 parameter schedule differing from the first only at item 0. -/
def c9paramsB : Nat → GetAllParams := fun i =>
  if i = 0 then ⟨false, 7, some "other", some "flt"⟩ else ⟨true, 9, none, none⟩

/-- C9: the shared mutable qs object leaks across items in message.getAll:
item 1 omits select, filter and top, yet its request carries item 0's
values; and with identical item-1 parameters but different item-0
parameters the request issued for item 1 differs, so it is not a function
of item 1's parameters alone. -/
theorem c9_shared_qs :
    messageGetAllCalls c9paramsA 2 =
      [GetAllCall.single "/messages" ⟨some "subject", some "flt", some 7⟩,
       GetAllCall.allItems "/messages" ⟨some "subject", some "flt", some 7⟩]
    ∧ messageGetAllCalls c9paramsB 2 =
      [GetAllCall.single "/messages" ⟨some "other", some "flt", some 7⟩,
       GetAllCall.allItems "/messages" ⟨some "other", some "flt", some 7⟩]
    ∧ c9paramsA 1 = c9paramsB 1
    ∧ messageGetAllCalls c9paramsA 2 ≠ messageGetAllCalls c9paramsB 2 := by
  refine ⟨rfl, rfl, rfl, ?_⟩
  decide

end OutlookNode
